import Mathlib

/-
  Verification development for the Twilio / AmiVoice / ChatGPT call-center bridge.

  The development shallowly embeds the two core classes of the repository:

  * `AmiVoice` (src/amivoice.js) — the Speech Session owning one websocket
    connection to the AmiVoice speech-recognition provider.  Its mutable
    fields (`isReady`, `isStarted`, `connection`, `apiKey`) become the
    record `AmiState`; every socket callback and public method becomes a
    case of the step function `stepAmi`, which returns the successor
    state together with the list of frames written to the provider
    connection and the list of emitted transcription documents.  A thrown
    JavaScript exception is modelled as `Except.error`.

  * `VoiceStream` (server.js) — the Call Session owning one inbound Twilio
    media-stream connection.  Its fields (`messageCount`,
    `amiVoiceConnection`, `callSid`) become `VSState`; the heap of
    constructed `AmiVoice` objects and the attached transcription
    subscriptions become `SessionHeap`.

  Supporting models translated from the same sources: a JSON value type
  with an executable parser (for `JSON.parse` applied to provider result
  frames), and the Node `Buffer.from(payload, "base64")` decoder together
  with a standard base64 encoder used to quantify over well-formed
  payloads.
-/

/-! ## JSON values and a model of JSON.parse -/

inductive Json where
  | jnull
  | jbool (b : Bool)
  | jnum (raw : String)
  | jstr (s : String)
  | jarr (elems : List Json)
  | jobj (fields : List (String × Json))

def jsonWs (c : Char) : Bool :=
  c = ' ' || c = '\t' || c = '\n' || c = '\r'

def skipWs : List Char → List Char
  | [] => []
  | c :: cs => if jsonWs c then skipWs cs else c :: cs

def hexVal (c : Char) : Option Nat :=
  if '0' ≤ c ∧ c ≤ '9' then some (c.toNat - '0'.toNat)
  else if 'a' ≤ c ∧ c ≤ 'f' then some (c.toNat - 'a'.toNat + 10)
  else if 'A' ≤ c ∧ c ≤ 'F' then some (c.toNat - 'A'.toNat + 10)
  else none

def escChar (e : Char) : Option Char :=
  if e = '"' then some '"'
  else if e = '\\' then some '\\'
  else if e = '/' then some '/'
  else if e = 'n' then some '\n'
  else if e = 't' then some '\t'
  else if e = 'r' then some '\r'
  else if e = 'b' then some (Char.ofNat 8)
  else if e = 'f' then some (Char.ofNat 12)
  else none

def parseStringBody (fuel : Nat) (cs : List Char) : Option (List Char × List Char) :=
  match fuel, cs with
  | 0, _ => none
  | _, [] => none
  | fuel + 1, c :: cs =>
    if c = '"' then some ([], cs)
    else if c = '\\' then
      match cs with
      | [] => none
      | e :: cs2 =>
        if e = 'u' then
          match cs2 with
          | a :: b :: c2 :: d :: cs3 =>
            match hexVal a, hexVal b, hexVal c2, hexVal d with
            | some x1, some x2, some x3, some x4 =>
              (parseStringBody fuel cs3).map
                (fun r => (Char.ofNat (x1 * 4096 + x2 * 256 + x3 * 16 + x4) :: r.1, r.2))
            | _, _, _, _ => none
          | _ => none
        else
          match escChar e with
          | some ec => (parseStringBody fuel cs2).map (fun r => (ec :: r.1, r.2))
          | none => none
    else (parseStringBody fuel cs).map (fun r => (c :: r.1, r.2))

def numChar (c : Char) : Bool :=
  ('0' ≤ c && c ≤ '9') || c = '-' || c = '+' || c = '.' || c = 'e' || c = 'E'

def takeNum : List Char → List Char × List Char
  | [] => ([], [])
  | c :: cs =>
    if numChar c then
      let r := takeNum cs
      (c :: r.1, r.2)
    else ([], c :: cs)

mutual

def parseValue (fuel : Nat) (cs : List Char) : Option (Json × List Char) :=
  match fuel with
  | 0 => none
  | fuel + 1 =>
    match skipWs cs with
    | [] => none
    | c :: rest =>
      if c = '"' then
        (parseStringBody (rest.length + 1) rest).map
          (fun r => (Json.jstr (String.mk r.1), r.2))
      else if c = '{' then
        match skipWs rest with
        | '}' :: r2 => some (Json.jobj [], r2)
        | cs2 => (parseMembers fuel cs2).map (fun r => (Json.jobj r.1, r.2))
      else if c = '[' then
        match skipWs rest with
        | ']' :: r2 => some (Json.jarr [], r2)
        | cs2 => (parseElems fuel cs2).map (fun r => (Json.jarr r.1, r.2))
      else if c = 't' then
        match rest with
        | 'r' :: 'u' :: 'e' :: r => some (Json.jbool true, r)
        | _ => none
      else if c = 'f' then
        match rest with
        | 'a' :: 'l' :: 's' :: 'e' :: r => some (Json.jbool false, r)
        | _ => none
      else if c = 'n' then
        match rest with
        | 'u' :: 'l' :: 'l' :: r => some (Json.jnull, r)
        | _ => none
      else if numChar c then
        let r := takeNum (c :: rest)
        some (Json.jnum (String.mk r.1), r.2)
      else none

def parseMembers (fuel : Nat) (cs : List Char) : Option (List (String × Json) × List Char) :=
  match fuel with
  | 0 => none
  | fuel + 1 =>
    match cs with
    | '"' :: rest =>
      match parseStringBody (rest.length + 1) rest with
      | none => none
      | some (key, cs2) =>
        match skipWs cs2 with
        | ':' :: cs3 =>
          match parseValue fuel cs3 with
          | none => none
          | some (v, cs4) =>
            match skipWs cs4 with
            | ',' :: cs5 =>
              (parseMembers fuel (skipWs cs5)).map
                (fun r => ((String.mk key, v) :: r.1, r.2))
            | '}' :: cs5 => some ([(String.mk key, v)], cs5)
            | _ => none
        | _ => none
    | _ => none

def parseElems (fuel : Nat) (cs : List Char) : Option (List Json × List Char) :=
  match fuel with
  | 0 => none
  | fuel + 1 =>
    match parseValue fuel cs with
    | none => none
    | some (v, cs2) =>
      match skipWs cs2 with
      | ',' :: cs3 => (parseElems fuel cs3).map (fun r => (v :: r.1, r.2))
      | ']' :: cs3 => some ([v], cs3)
      | _ => none

end

/-- Model of `JSON.parse` on a whole string: parse one value, allow only
trailing whitespace. -/
def jsonParse (s : String) : Option Json :=
  match parseValue (2 * s.data.length + 4) s.data with
  | some (v, rest) => if skipWs rest = [] then some v else none
  | none => none

/-- Last-occurrence field lookup, matching JavaScript object semantics
where a duplicated key keeps the last value. -/
def jsonField (fields : List (String × Json)) (key : String) : Option Json :=
  fields.foldl (fun acc kv => if kv.1 = key then some kv.2 else acc) none

/-- The `text` field of a parsed provider result document (`data.text`). -/
def jsonTextField : Json → Option String
  | Json.jobj fields =>
    match jsonField fields "text" with
    | some (Json.jstr s) => some s
    | _ => none
  | _ => none

/-! ## Base64: the Node `Buffer.from(payload, "base64")` decoder and a
standard encoder used to quantify over well-formed payloads -/

def b64Alphabet : List Char :=
  "ABCDEFGHIJKLMNOPQRSTUVWXYZabcdefghijklmnopqrstuvwxyz0123456789+/".data

def encChar (v : Nat) : Char := b64Alphabet.getD v 'A'

def decValue (c : Char) : Option Nat :=
  List.findIdx? (fun a => a = c) b64Alphabet

def b64EncodeBytes : List Nat → List Char
  | [] => []
  | [b1] => [encChar (b1 / 4), encChar (b1 % 4 * 16), '=', '=']
  | [b1, b2] =>
      [encChar (b1 / 4), encChar (b1 % 4 * 16 + b2 / 16), encChar (b2 % 16 * 4), '=']
  | b1 :: b2 :: b3 :: rest =>
      encChar (b1 / 4) :: encChar (b1 % 4 * 16 + b2 / 16) ::
      encChar (b2 % 16 * 4 + b3 / 64) :: encChar (b3 % 64) :: b64EncodeBytes rest

/-- Standard base64 encoding of a byte sequence (with padding). -/
def base64Encode (bs : List Nat) : String := String.mk (b64EncodeBytes bs)

def b64DecodeSextets : List Nat → List Nat
  | v1 :: v2 :: v3 :: v4 :: rest =>
      (v1 * 4 + v2 / 16) :: (v2 % 16 * 16 + v3 / 4) :: (v3 % 4 * 64 + v4) ::
        b64DecodeSextets rest
  | [v1, v2] => [v1 * 4 + v2 / 16]
  | [v1, v2, v3] => [v1 * 4 + v2 / 16, v2 % 16 * 16 + v3 / 4]
  | _ => []

/-- Model of Node's `Buffer.from(s, "base64")`: non-alphabet characters
(including padding) are ignored, then complete and trailing partial
sextet groups are decoded. -/
def base64DecodeNode (s : String) : List Nat :=
  b64DecodeSextets (s.data.filterMap decValue)

/-! ## The Speech Session: class `AmiVoice` of src/amivoice.js -/

/-- The mutable instance fields of class `AmiVoice`.  `hasConnection`
records whether `this.connection` has been assigned (it is `undefined`
until the low-level connect succeeds); `pendingConnect` records an
issued, unresolved `client.connect(...)` attempt; `connectAttempts`
counts how many low-level connect attempts `connect()` has issued. -/
structure AmiState where
  apiKey : String
  isReady : Bool
  isStarted : Bool
  hasConnection : Bool
  pendingConnect : Bool
  connectAttempts : Nat
deriving DecidableEq

/-- The `AmiVoice` constructor: stores the key and calls `connect()`,
which (since `isReady` is false) issues one connection attempt. -/
def amiInit (apiKey : String) : AmiState :=
  { apiKey := apiKey, isReady := false, isStarted := false,
    hasConnection := false, pendingConnect := true, connectAttempts := 1 }

/-- The session-start command built in `AmiVoice.start()`:
`s mulaw -a-general authorization=<apiKey>`. -/
def startCommand (apiKey : String) : String :=
  "s mulaw -a-general authorization=" ++ apiKey

/-- A frame written on the provider websocket connection: a text frame
(`connection.send(string)`) or a binary frame (`connection.send(Buffer)`). -/
inductive Write where
  | text (s : String)
  | binary (bytes : List Nat)
deriving DecidableEq

/-- Events driving one `AmiVoice` object: the four websocket callbacks
(`connectFailed`, `connect`, `message` utf8/binary, `error`, `close`)
and the two public API methods invoked by the owning `VoiceStream`
(`send(payload)` and `close()`). -/
inductive AmiEvent where
  | connectFailed
  | connectSuccess
  | message (utf8Data : String)
  | messageBinary
  | connError
  | connClose
  | apiSend (payload : String)
  | apiClose
deriving DecidableEq

/-- A synchronously thrown JavaScript exception. -/
inductive JsErr where
  | typeError
  | jsonParseError
deriving DecidableEq

/-- The body of `AmiVoice.send`: `new Uint8Array(buff.length + 1)`
(zero-initialised), `outData[0] = 0x70`, then the index loop copying
`buff` into positions `1..buff.length`. -/
def copyLoop (buff : List Nat) (outData : List Nat) (i : Nat) : List Nat :=
  if i < buff.length then copyLoop buff (outData.set (1 + i) (buff.getD i 0)) (i + 1)
  else outData
termination_by buff.length - i
decreasing_by
  omega

def buildAudioFrame (buff : List Nat) : List Nat :=
  copyLoop buff ((List.replicate (buff.length + 1) 0).set 0 0x70) 0

/-- The `connection.on("message", ...)` handler: dispatch on the first
character of a utf8 frame; `A` parses the payload from offset 2 with
`JSON.parse` (a parse failure is a thrown exception) and emits one
`transcription` event carrying the parsed document. -/
def handleProviderMessage (s : AmiState) (utf8Data : String) :
    Except JsErr (AmiState × List Write × List Json) :=
  match utf8Data.data with
  | [] => .ok (s, [], [])
  | code :: _ =>
    if code = 's' then .ok ({ s with isStarted := true }, [], [])
    else if code = 'A' then
      match jsonParse (utf8Data.drop 2) with
      | some data => .ok (s, [], [data])
      | none => .error .jsonParseError
    else if code = 'e' then .ok ({ s with isStarted := false, isReady := false }, [], [])
    else .ok (s, [], [])

/-- One step of the `AmiVoice` object.  Returns the successor state, the
frames written on the provider connection, and the emitted transcription
documents; `Except.error` models a thrown exception.  The
`connectSuccess` case inlines the `connect` handler body followed by the
`start()` call it makes; `apiSend`/`apiClose` are `send`/`close`, whose
`this.connection.send` on an absent connection would throw. -/
def stepAmi (s : AmiState) (e : AmiEvent) :
    Except JsErr (AmiState × List Write × List Json) :=
  match e with
  | .connectFailed =>
      .ok ({ s with isReady := false, pendingConnect := false }, [], [])
  | .connectSuccess =>
      let s1 := { s with hasConnection := true, isReady := true, pendingConnect := false }
      if s1.isStarted then .ok (s1, [], [])
      else .ok (s1, [Write.text (startCommand s1.apiKey)], [])
  | .message d => handleProviderMessage s d
  | .messageBinary => .ok (s, [], [])
  | .connError => .ok (s, [], [])
  | .connClose => .ok ({ s with isStarted := false }, [], [])
  | .apiSend payload =>
      if s.isStarted then
        if s.hasConnection then
          .ok (s, [Write.binary (buildAudioFrame (base64DecodeNode payload))], [])
        else .error .typeError
      else .ok (s, [], [])
  | .apiClose =>
      if s.isStarted && s.isReady then
        if s.hasConnection then
          .ok ({ s with isStarted := false }, [Write.text "e"], [])
        else .error .typeError
      else .ok (s, [], [])

/-- Run a sequence of events through one `AmiVoice` object, accumulating
the frames written to the provider connection; a thrown exception aborts
the run. -/
def runAmi (s : AmiState) : List AmiEvent → List Write × Except JsErr AmiState
  | [] => ([], .ok s)
  | e :: es =>
    match stepAmi s e with
    | .error err => ([], .error err)
    | .ok (s1, ws, _ems) =>
      let r := runAmi s1 es
      (ws ++ r.1, r.2)

/-! ### Admissible event sequences

The environment cannot deliver arbitrary events: the websocket client
resolves its single connect attempt exactly once, and `message` /
`close` callbacks fire only on an established connection.  This is the
transport-level automaton constraining which event sequences can reach
one `AmiVoice` object. -/

inductive AmiMode where
  | pending
  | connected
  | closedConn
  | failed
deriving DecidableEq

def amiModeStep (m : AmiMode) (e : AmiEvent) : Option AmiMode :=
  match m, e with
  | .pending, .connectSuccess => some .connected
  | .pending, .connectFailed => some .failed
  | .connected, .message _ => some .connected
  | .connected, .messageBinary => some .connected
  | .connected, .connError => some .connected
  | .connected, .connClose => some .closedConn
  | .pending, .apiSend _ => some .pending
  | .pending, .apiClose => some .pending
  | .connected, .apiSend _ => some .connected
  | .connected, .apiClose => some .connected
  | .closedConn, .apiSend _ => some .closedConn
  | .closedConn, .apiClose => some .closedConn
  | .failed, .apiSend _ => some .failed
  | .failed, .apiClose => some .failed
  | _, _ => none

def admissibleFrom : AmiMode → List AmiEvent → Bool
  | _, [] => true
  | m, e :: es =>
    match amiModeStep m e with
    | some m2 => admissibleFrom m2 es
    | none => false

/-- An event sequence deliverable to a freshly constructed `AmiVoice`
object (whose connect attempt is still pending). -/
def amiAdmissible (tr : List AmiEvent) : Bool :=
  admissibleFrom AmiMode.pending tr

/-! ## The Call Session: class `VoiceStream` of server.js -/

/-- One chat message of the OpenAI request body
(`{role: "user", content: data.body.text}`). -/
structure ChatMessage where
  role : String
  content : String
deriving DecidableEq

structure ChatChoice where
  message : ChatMessage
deriving DecidableEq

/-- The part of the OpenAI chat-completion response the code reads
(`completion.data.choices[0].message.content`). -/
structure ChatCompletionResponse where
  choices : List ChatChoice
deriving DecidableEq

/-- The TwiML document built in `receivedTranscription`:
`say({voice, language}, text)` followed by `pause({length})`. -/
structure TwimlDoc where
  voice : String
  language : String
  sayText : String
  pauseLength : Nat
deriving DecidableEq

/-- `TWILIO_VOICE` in server.js. -/
def TWILIO_VOICE : String := "Polly.Takumi-Neural"

/-- `TWILIO_LANGUAGE` in server.js. -/
def TWILIO_LANGUAGE : String := "ja-JP"

/-- An invocation of an external service: the OpenAI chat-completion
request (`openai.createChatCompletion`) or the Twilio call update
(`twilioClient.calls(callSid).update({twiml})`). -/
inductive ExtCall where
  | chatComplete (model : String) (messages : List ChatMessage)
  | callUpdate (callSid : String) (doc : TwimlDoc)
deriving DecidableEq

/-- `VoiceStream.receivedTranscription`, given the transcribed text
`data.body.text` and the stored `callSid`.  The completion oracle
`complete` stands for the OpenAI service; reading
`choices[0].message.content` on an empty `choices` array throws. -/
def receivedTranscription (complete : List ChatMessage → ChatCompletionResponse)
    (text : String) (callSid : String) : Except JsErr (List ExtCall) :=
  let messages : List ChatMessage := [{ role := "user", content := text }]
  let completion := complete messages
  match completion.choices.get? 0 with
  | none => .error .typeError
  | some choice =>
    let chatGptMessage := choice.message.content
    .ok [ ExtCall.chatComplete "gpt-3.5-turbo" messages,
          ExtCall.callUpdate callSid
            { voice := TWILIO_VOICE, language := TWILIO_LANGUAGE,
              sayText := chatGptMessage, pauseLength := 40 } ]

/-- The transcription handler attached in the `start` case: it receives
the emitted document (`transcriptionData`, whose `body` is the parsed
provider result) and calls `receivedTranscription` with
`data.body.text` and the current `this.callSid`. -/
def receivedTranscriptionDoc (complete : List ChatMessage → ChatCompletionResponse)
    (doc : Json) (callSid : String) : Except JsErr (List ExtCall) :=
  match jsonTextField doc with
  | some text => receivedTranscription complete text callSid
  | none => .error .typeError

/-- An inbound Twilio message after `JSON.parse` of the envelope: the
`event` discriminator cases of `processMessage` (the JSON envelope
itself is taken post-parse; `other` is any unrecognized event).  A
binary frame is only logged. -/
inductive TwilioEvent where
  | connected
  | start (callSid : String)
  | media (payload : String)
  | closed
  | other
deriving DecidableEq

inductive TwilioMsg where
  | utf8 (e : TwilioEvent)
  | binary
deriving DecidableEq

/-- The mutable instance fields of class `VoiceStream`.
`amiVoiceConnection` is `null` until a `start` event arrives and then
holds a reference to an `AmiVoice` object, modelled as an index into the
heap of constructed sessions. -/
structure VSState where
  messageCount : Nat
  amiVoiceConnection : Option Nat
  callSid : String
deriving DecidableEq

def vsInit : VSState :=
  { messageCount := 0, amiVoiceConnection := none, callSid := "" }

/-- The heap of `AmiVoice` objects constructed by one `VoiceStream`,
together with the indices of those on which a `transcription` handler
was registered (`this.amiVoiceConnection.on("transcription", ...)`). -/
structure SessionHeap where
  sessions : List AmiState
  subs : List Nat
deriving DecidableEq

def emptyHeap : SessionHeap := { sessions := [], subs := [] }

/-- `VoiceStream.close()`: logs the message count, then calls
`this.amiVoiceConnection.close()` — a `TypeError` when
`amiVoiceConnection` is still `null`. -/
def vsClose (st : VSState) (heap : SessionHeap) :
    Except JsErr (SessionHeap × List (Nat × Write)) :=
  match st.amiVoiceConnection with
  | none => .error .typeError
  | some i =>
    match heap.sessions.get? i with
    | none => .error .typeError
    | some sess =>
      match stepAmi sess .apiClose with
      | .error e => .error e
      | .ok (sess1, ws, _ems) =>
        .ok ({ heap with sessions := heap.sessions.set i sess1 },
             ws.map (fun w => (i, w)))

/-- `VoiceStream.processMessage`.  Returns the updated Call Session
state, the updated heap, and the provider-connection writes performed by
the owned Speech Session, tagged with the session's heap index.  The
`media` case calls `this.amiVoiceConnection.send(...)` — a `TypeError`
when `amiVoiceConnection` is still `null`; the `start` case constructs a
new `AmiVoice` and subscribes to its transcriptions, overwriting the
reference; `messageCount` increments after the switch for every utf8
frame. -/
def processMessage (apiKey : String) (st : VSState) (heap : SessionHeap)
    (msg : TwilioMsg) :
    Except JsErr (VSState × SessionHeap × List (Nat × Write)) :=
  match msg with
  | .binary => .ok (st, heap, [])
  | .utf8 ev =>
    match ev with
    | .connected =>
      .ok ({ st with messageCount := st.messageCount + 1 }, heap, [])
    | .start sid =>
      let idx := heap.sessions.length
      .ok ({ st with callSid := sid, amiVoiceConnection := some idx,
                     messageCount := st.messageCount + 1 },
           { sessions := heap.sessions ++ [amiInit apiKey],
             subs := heap.subs ++ [idx] }, [])
    | .media p =>
      match st.amiVoiceConnection with
      | none => .error .typeError
      | some i =>
        match heap.sessions.get? i with
        | none => .error .typeError
        | some sess =>
          match stepAmi sess (.apiSend p) with
          | .error e => .error e
          | .ok (sess1, ws, _ems) =>
            .ok ({ st with messageCount := st.messageCount + 1 },
                 { heap with sessions := heap.sessions.set i sess1 },
                 ws.map (fun w => (i, w)))
    | .closed =>
      match vsClose st heap with
      | .error e => .error e
      | .ok (heap1, ws) =>
        .ok ({ st with messageCount := st.messageCount + 1 }, heap1, ws)
    | .other =>
      .ok ({ st with messageCount := st.messageCount + 1 }, heap, [])

/-- An event of the composed system: an inbound Twilio frame handled by
the `VoiceStream`, or a websocket event delivered to the `AmiVoice`
object at heap index `i`. -/
inductive SysEvent where
  | twilio (m : TwilioMsg)
  | ami (i : Nat) (e : AmiEvent)

/-- Run the composed system, accumulating all provider-connection writes
tagged by session index. -/
def runSys (apiKey : String) (st : VSState) (heap : SessionHeap) :
    List SysEvent → Except JsErr (VSState × SessionHeap × List (Nat × Write))
  | [] => .ok (st, heap, [])
  | .twilio m :: es =>
    match processMessage apiKey st heap m with
    | .error err => .error err
    | .ok (st1, heap1, ws) =>
      match runSys apiKey st1 heap1 es with
      | .error err => .error err
      | .ok (st2, heap2, ws2) => .ok (st2, heap2, ws ++ ws2)
  | .ami i e :: es =>
    match heap.sessions.get? i with
    | none => .error .typeError
    | some sess =>
      match stepAmi sess e with
      | .error err => .error err
      | .ok (sess1, ws, _ems) =>
        match runSys apiKey st { heap with sessions := heap.sessions.set i sess1 } es with
        | .error err => .error err
        | .ok (st2, heap2, ws2) => .ok (st2, heap2, ws.map (fun w => (i, w)) ++ ws2)

/-- Deliver a transcription document emitted by the session at heap
index `i`: each registered handler for that session invokes
`receivedTranscription` with the current `this.callSid`. -/
def deliverTranscription (complete : List ChatMessage → ChatCompletionResponse)
    (st : VSState) (heap : SessionHeap) (i : Nat) (doc : Json) :
    List (Except JsErr (List ExtCall)) :=
  if i ∈ heap.subs then [receivedTranscriptionDoc complete doc st.callSid]
  else []

/-! ## Helper lemmas: the audio-frame copy loop -/

theorem listSet_append_len (l r : List Nat) (n a b : Nat) (h : l.length = n) :
    (l ++ a :: r).set n b = l ++ b :: r := by
  subst h
  induction l with
  | nil => rfl
  | cons x xs ih => simp [List.set, ih]

theorem listTake_succ_getD (l : List Nat) (i : Nat) (h : i < l.length) :
    l.take (i + 1) = l.take i ++ [l.getD i 0] := by
  induction l generalizing i with
  | nil => simp at h
  | cons x xs ih =>
    cases i with
    | zero => simp [List.getD]
    | succ j =>
      have hj : j < xs.length := by simpa using h
      simp [List.getD] at ih ⊢
      simpa using ih j hj

theorem copyLoop_take (buff : List Nat) :
    ∀ k i, k = buff.length - i → i ≤ buff.length →
    copyLoop buff (0x70 :: (buff.take i ++ List.replicate (buff.length - i) 0)) i
      = 0x70 :: buff := by
  intro k
  induction k with
  | zero =>
    intro i hk hi
    have hi2 : i = buff.length := by omega
    subst hi2
    rw [copyLoop]
    simp
  | succ k ih =>
    intro i hk hi
    have hlt : i < buff.length := by omega
    rw [copyLoop, if_pos hlt]
    have hrep : List.replicate (buff.length - i) 0
        = 0 :: List.replicate (buff.length - (i + 1)) 0 := by
      have : buff.length - i = (buff.length - (i + 1)) + 1 := by omega
      rw [this, List.replicate_succ]
    have hlen : (buff.take i).length = i := by
      simp [List.length_take]; omega
    have hset : (0x70 :: (buff.take i ++ List.replicate (buff.length - i) 0)).set
          (1 + i) (buff.getD i 0)
        = 0x70 :: (buff.take (i + 1) ++ List.replicate (buff.length - (i + 1)) 0) := by
      rw [hrep]
      have h1i : 1 + i = i + 1 := by omega
      rw [h1i, List.set_cons_succ,
        listSet_append_len (buff.take i) _ i _ _ hlen,
        listTake_succ_getD buff i hlt]
      simp
    rw [hset]
    exact ih (i + 1) (by omega) (by omega)

/-- The `send` body builds exactly the frame `0x70` followed by the
decoded payload bytes. -/
theorem buildAudioFrame_eq (buff : List Nat) : buildAudioFrame buff = 0x70 :: buff := by
  have h0 : (List.replicate (buff.length + 1) 0).set 0 0x70
      = 0x70 :: (buff.take 0 ++ List.replicate (buff.length - 0) 0) := by
    simp [List.replicate_succ]
  rw [buildAudioFrame, h0]
  exact copyLoop_take buff (buff.length - 0) 0 rfl (by omega)

/-! ## Helper lemmas: base64 round-trip -/

theorem decValue_encChar : ∀ v : Nat, v < 64 → decValue (encChar v) = some v := by
  decide

theorem decValue_pad : decValue '=' = none := by decide

theorem b64_roundtrip : ∀ bs : List Nat, (∀ b ∈ bs, b < 256) →
    b64DecodeSextets ((b64EncodeBytes bs).filterMap decValue) = bs := by
  intro bs
  induction bs using b64EncodeBytes.induct with
  | case1 =>
    intro _
    rfl
  | case2 b1 =>
    intro hb
    have h1 : b1 < 256 := hb b1 (by simp)
    rw [b64EncodeBytes]
    rw [List.filterMap_cons, decValue_encChar _ (by omega)]
    rw [List.filterMap_cons, decValue_encChar _ (by omega)]
    rw [List.filterMap_cons, decValue_pad, List.filterMap_cons, decValue_pad]
    simp only [List.filterMap_nil]
    show [b1 / 4 * 4 + b1 % 4 * 16 / 16] = [b1]
    congr 1
    omega
  | case3 b1 b2 =>
    intro hb
    have h1 : b1 < 256 := hb b1 (by simp)
    have h2 : b2 < 256 := hb b2 (by simp)
    rw [b64EncodeBytes]
    rw [List.filterMap_cons, decValue_encChar _ (by omega)]
    rw [List.filterMap_cons, decValue_encChar _ (by omega)]
    rw [List.filterMap_cons, decValue_encChar _ (by omega)]
    rw [List.filterMap_cons, decValue_pad]
    simp only [List.filterMap_nil]
    show [_, _] = [b1, b2]
    congr 1
    · omega
    · congr 1
      omega
  | case4 b1 b2 b3 rest ih =>
    intro hb
    have h1 : b1 < 256 := hb b1 (by simp)
    have h2 : b2 < 256 := hb b2 (by simp)
    have h3 : b3 < 256 := hb b3 (by simp)
    have hrest : ∀ b ∈ rest, b < 256 := by
      intro b hbmem
      exact hb b (by simp [hbmem])
    rw [b64EncodeBytes]
    rw [List.filterMap_cons, decValue_encChar _ (by omega)]
    rw [List.filterMap_cons, decValue_encChar _ (by omega)]
    rw [List.filterMap_cons, decValue_encChar _ (by omega)]
    rw [List.filterMap_cons, decValue_encChar _ (by omega)]
    rw [b64DecodeSextets, ih hrest]
    congr 1
    · omega
    · congr 1
      · omega
      · congr 1
        omega

/-! ## Helper lemmas: reachable-state invariants of the Speech Session -/

/-- State invariant tied to the transport automaton mode: before any
connect resolution (and after a failure) no flag is set and no
connection exists; once connected, `this.connection` stays assigned;
after a transport close the started flag stays cleared. -/
def stateOk : AmiMode → AmiState → Prop
  | .pending, s => s.isReady = false ∧ s.isStarted = false ∧ s.hasConnection = false
  | .failed, s => s.isReady = false ∧ s.isStarted = false ∧ s.hasConnection = false
  | .connected, s => s.hasConnection = true
  | .closedConn, s => s.hasConnection = true ∧ s.isStarted = false

theorem handleProviderMessage_ok {s s1 : AmiState} {d : String}
    {ws : List Write} {ems : List Json}
    (h : handleProviderMessage s d = .ok (s1, ws, ems)) :
    ws = [] ∧ s1.hasConnection = s.hasConnection ∧ s1.apiKey = s.apiKey := by
  unfold handleProviderMessage at h
  rcases hd : d.data with _ | ⟨c, rest⟩ <;> rw [hd] at h
  · simp only [Except.ok.injEq, Prod.mk.injEq] at h
    obtain ⟨rfl, rfl, rfl⟩ := h
    simp
  · simp only [] at h
    split_ifs at h
    · simp only [Except.ok.injEq, Prod.mk.injEq] at h
      obtain ⟨rfl, rfl, rfl⟩ := h
      simp
    · split at h
      · simp only [Except.ok.injEq, Prod.mk.injEq] at h
        obtain ⟨rfl, rfl, rfl⟩ := h
        simp
      · exact absurd h (by simp)
    · simp only [Except.ok.injEq, Prod.mk.injEq] at h
      obtain ⟨rfl, rfl, rfl⟩ := h
      simp
    · simp only [Except.ok.injEq, Prod.mk.injEq] at h
      obtain ⟨rfl, rfl, rfl⟩ := h
      simp

theorem stepAmi_apiSend_state {s s1 : AmiState} {p : String}
    {ws : List Write} {ems : List Json}
    (h : stepAmi s (.apiSend p) = .ok (s1, ws, ems)) : s1 = s := by
  unfold stepAmi at h
  split_ifs at h <;> simp_all

theorem stepAmi_apiClose_state {s s1 : AmiState}
    {ws : List Write} {ems : List Json}
    (h : stepAmi s .apiClose = .ok (s1, ws, ems)) :
    s1 = s ∨ s1 = { s with isStarted := false } := by
  unfold stepAmi at h
  split_ifs at h <;> simp_all

theorem stepAmi_stateOk {m m2 : AmiMode} {s s1 : AmiState} {e : AmiEvent}
    {ws : List Write} {ems : List Json}
    (hok : stateOk m s) (hm : amiModeStep m e = some m2)
    (hstep : stepAmi s e = .ok (s1, ws, ems)) :
    stateOk m2 s1 ∧ s1.apiKey = s.apiKey := by
  cases m with
  | pending =>
    obtain ⟨hr, hst, hc⟩ := hok
    cases e with
    | connectFailed =>
      simp only [amiModeStep, Option.some.injEq] at hm
      subst hm
      unfold stepAmi at hstep
      simp only [Except.ok.injEq, Prod.mk.injEq] at hstep
      obtain ⟨rfl, rfl, rfl⟩ := hstep
      simp [stateOk, hst, hc]
    | connectSuccess =>
      simp only [amiModeStep, Option.some.injEq] at hm
      subst hm
      unfold stepAmi at hstep
      simp only [hst, Except.ok.injEq, Prod.mk.injEq] at hstep
      obtain ⟨rfl, rfl, rfl⟩ := hstep
      simp [stateOk]
    | apiSend p =>
      simp only [amiModeStep, Option.some.injEq] at hm
      subst hm
      obtain rfl := stepAmi_apiSend_state hstep
      exact ⟨⟨hr, hst, hc⟩, rfl⟩
    | apiClose =>
      simp only [amiModeStep, Option.some.injEq] at hm
      subst hm
      rcases stepAmi_apiClose_state hstep with rfl | rfl
      · exact ⟨⟨hr, hst, hc⟩, rfl⟩
      · exact ⟨⟨hr, rfl, hc⟩, rfl⟩
    | message d => simp [amiModeStep] at hm
    | messageBinary => simp [amiModeStep] at hm
    | connError => simp [amiModeStep] at hm
    | connClose => simp [amiModeStep] at hm
  | failed =>
    obtain ⟨hr, hst, hc⟩ := hok
    cases e with
    | apiSend p =>
      simp only [amiModeStep, Option.some.injEq] at hm
      subst hm
      obtain rfl := stepAmi_apiSend_state hstep
      exact ⟨⟨hr, hst, hc⟩, rfl⟩
    | apiClose =>
      simp only [amiModeStep, Option.some.injEq] at hm
      subst hm
      rcases stepAmi_apiClose_state hstep with rfl | rfl
      · exact ⟨⟨hr, hst, hc⟩, rfl⟩
      · exact ⟨⟨hr, rfl, hc⟩, rfl⟩
    | connectFailed => simp [amiModeStep] at hm
    | connectSuccess => simp [amiModeStep] at hm
    | message d => simp [amiModeStep] at hm
    | messageBinary => simp [amiModeStep] at hm
    | connError => simp [amiModeStep] at hm
    | connClose => simp [amiModeStep] at hm
  | connected =>
    cases e with
    | message d =>
      simp only [amiModeStep, Option.some.injEq] at hm
      subst hm
      obtain ⟨-, hcon, hkey⟩ := handleProviderMessage_ok hstep
      exact ⟨by simp only [stateOk]; rw [hcon]; exact hok, hkey⟩
    | messageBinary =>
      simp only [amiModeStep, Option.some.injEq] at hm
      subst hm
      unfold stepAmi at hstep
      simp only [Except.ok.injEq, Prod.mk.injEq] at hstep
      obtain ⟨rfl, rfl, rfl⟩ := hstep
      exact ⟨hok, rfl⟩
    | connError =>
      simp only [amiModeStep, Option.some.injEq] at hm
      subst hm
      unfold stepAmi at hstep
      simp only [Except.ok.injEq, Prod.mk.injEq] at hstep
      obtain ⟨rfl, rfl, rfl⟩ := hstep
      exact ⟨hok, rfl⟩
    | connClose =>
      simp only [amiModeStep, Option.some.injEq] at hm
      subst hm
      unfold stepAmi at hstep
      simp only [Except.ok.injEq, Prod.mk.injEq] at hstep
      obtain ⟨rfl, rfl, rfl⟩ := hstep
      exact ⟨⟨hok, rfl⟩, rfl⟩
    | apiSend p =>
      simp only [amiModeStep, Option.some.injEq] at hm
      subst hm
      obtain rfl := stepAmi_apiSend_state hstep
      exact ⟨hok, rfl⟩
    | apiClose =>
      simp only [amiModeStep, Option.some.injEq] at hm
      subst hm
      rcases stepAmi_apiClose_state hstep with rfl | rfl
      · exact ⟨hok, rfl⟩
      · exact ⟨hok, rfl⟩
    | connectFailed => simp [amiModeStep] at hm
    | connectSuccess => simp [amiModeStep] at hm
  | closedConn =>
    obtain ⟨hc, hst⟩ := hok
    cases e with
    | apiSend p =>
      simp only [amiModeStep, Option.some.injEq] at hm
      subst hm
      obtain rfl := stepAmi_apiSend_state hstep
      exact ⟨⟨hc, hst⟩, rfl⟩
    | apiClose =>
      simp only [amiModeStep, Option.some.injEq] at hm
      subst hm
      rcases stepAmi_apiClose_state hstep with rfl | rfl
      · exact ⟨⟨hc, hst⟩, rfl⟩
      · exact ⟨⟨hc, rfl⟩, rfl⟩
    | connectFailed => simp [amiModeStep] at hm
    | connectSuccess => simp [amiModeStep] at hm
    | message d => simp [amiModeStep] at hm
    | messageBinary => simp [amiModeStep] at hm
    | connError => simp [amiModeStep] at hm
    | connClose => simp [amiModeStep] at hm

theorem runAmi_ok_stateOk : ∀ (tr : List AmiEvent) (m : AmiMode) (s s1 : AmiState),
    stateOk m s → admissibleFrom m tr = true → (runAmi s tr).2 = .ok s1 →
    ∃ m2, stateOk m2 s1 ∧ s1.apiKey = s.apiKey := by
  intro tr
  induction tr with
  | nil =>
    intro m s s1 hok _ hrun
    simp only [runAmi, Except.ok.injEq] at hrun
    subst hrun
    exact ⟨m, hok, rfl⟩
  | cons e es ih =>
    intro m s s1 hok hadm hrun
    unfold admissibleFrom at hadm
    rcases hm : amiModeStep m e with _ | m2 <;> rw [hm] at hadm
    · simp at hadm
    · unfold runAmi at hrun
      rcases hstep : stepAmi s e with err | ⟨s2, ws, ems⟩ <;> rw [hstep] at hrun
      · simp at hrun
      · simp only at hrun
        obtain ⟨hok2, hkey⟩ := stepAmi_stateOk hok hm hstep
        obtain ⟨m3, h3, hkey2⟩ := ih m2 s2 s1 hok2 hadm hrun
        exact ⟨m3, h3, by rw [hkey2, hkey]⟩

/-- In every reachable state, a set started flag implies the connection
object has been assigned. -/
theorem stateOk_started_hasConnection {m : AmiMode} {s : AmiState}
    (hok : stateOk m s) (hst : s.isStarted = true) : s.hasConnection = true := by
  cases m with
  | pending => rw [hok.2.1] at hst; cases hst
  | failed => rw [hok.2.1] at hst; cases hst
  | connected => exact hok
  | closedConn => rw [hok.2] at hst; cases hst

/-! ## Helper lemmas: writes produced along a run -/

theorem admissibleFrom_failed_no_success : ∀ (tr : List AmiEvent),
    admissibleFrom .failed tr = true → AmiEvent.connectSuccess ∉ tr := by
  intro tr
  induction tr with
  | nil => simp
  | cons e es ih =>
    intro h
    unfold admissibleFrom at h
    cases e <;> simp [amiModeStep] at h <;> simp [ih h]

/-- In a dead state (no flag set), admissible pending/failed-mode events
other than a connect success produce no writes. -/
theorem runAmi_dead_writes : ∀ (tr : List AmiEvent) (m : AmiMode) (s : AmiState),
    (m = .pending ∨ m = .failed) →
    s.isReady = false → s.isStarted = false →
    admissibleFrom m tr = true → AmiEvent.connectSuccess ∉ tr →
    (runAmi s tr).1 = [] := by
  intro tr
  induction tr with
  | nil => intro m s _ _ _ _ _; rfl
  | cons e es ih =>
    intro m s hm hr hst hadm hmem
    have hmem2 : AmiEvent.connectSuccess ∉ es := fun hin => hmem (by simp [hin])
    unfold admissibleFrom at hadm
    rcases hstep2 : amiModeStep m e with _ | m2 <;> rw [hstep2] at hadm
    · simp at hadm
    · cases e with
      | connectFailed =>
        have hmp : m = .pending := by
          rcases hm with rfl | rfl
          · rfl
          · simp [amiModeStep] at hstep2
        subst hmp
        simp only [amiModeStep, Option.some.injEq] at hstep2
        subst hstep2
        have hse : stepAmi s .connectFailed
            = .ok ({ s with isReady := false, pendingConnect := false }, [], []) := rfl
        unfold runAmi
        rw [hse]
        simpa using ih .failed { s with isReady := false, pendingConnect := false }
          (Or.inr rfl) rfl hst hadm hmem2
      | connectSuccess => exact absurd (by simp) hmem
      | apiSend p =>
        have hse : stepAmi s (.apiSend p) = .ok (s, [], []) := by
          unfold stepAmi
          simp [hst]
        rcases hm with rfl | rfl <;>
          simp only [amiModeStep, Option.some.injEq] at hstep2 <;> subst hstep2
        · unfold runAmi
          rw [hse]
          simpa using ih .pending s (Or.inl rfl) hr hst hadm hmem2
        · unfold runAmi
          rw [hse]
          simpa using ih .failed s (Or.inr rfl) hr hst hadm hmem2
      | apiClose =>
        have hse : stepAmi s .apiClose = .ok (s, [], []) := by
          unfold stepAmi
          simp [hst]
        rcases hm with rfl | rfl <;>
          simp only [amiModeStep, Option.some.injEq] at hstep2 <;> subst hstep2
        · unfold runAmi
          rw [hse]
          simpa using ih .pending s (Or.inl rfl) hr hst hadm hmem2
        · unfold runAmi
          rw [hse]
          simpa using ih .failed s (Or.inr rfl) hr hst hadm hmem2
      | message d => rcases hm with rfl | rfl <;> simp [amiModeStep] at hstep2
      | messageBinary => rcases hm with rfl | rfl <;> simp [amiModeStep] at hstep2
      | connError => rcases hm with rfl | rfl <;> simp [amiModeStep] at hstep2
      | connClose => rcases hm with rfl | rfl <;> simp [amiModeStep] at hstep2

theorem runAmi_cons_ok {s s1 : AmiState} {e : AmiEvent} {ws : List Write}
    {ems : List Json} (h : stepAmi s e = .ok (s1, ws, ems)) (es : List AmiEvent) :
    runAmi s (e :: es) = (ws ++ (runAmi s1 es).1, (runAmi s1 es).2) := by
  show (match stepAmi s e with
    | Except.error err => (([] : List Write), (Except.error err : Except JsErr AmiState))
    | Except.ok (s1, ws, _ems) =>
      let r := runAmi s1 es
      (ws ++ r.1, r.2)) = _
  rw [h]

theorem stepAmi_writes_connected {m m2 : AmiMode} {s s1 : AmiState} {e : AmiEvent}
    {ws : List Write} {ems : List Json}
    (hmode : m = .connected ∨ m = .closedConn)
    (hm : amiModeStep m e = some m2)
    (hstep : stepAmi s e = .ok (s1, ws, ems)) :
    ∀ w ∈ ws, (∃ bs, w = Write.binary bs) ∨ w = Write.text "e" := by
  cases e with
  | connectFailed => rcases hmode with rfl | rfl <;> simp [amiModeStep] at hm
  | connectSuccess => rcases hmode with rfl | rfl <;> simp [amiModeStep] at hm
  | message d =>
    obtain ⟨rfl, -, -⟩ := handleProviderMessage_ok hstep
    simp
  | messageBinary =>
    unfold stepAmi at hstep
    simp only [Except.ok.injEq, Prod.mk.injEq] at hstep
    obtain ⟨-, hws, -⟩ := hstep
    subst hws
    simp
  | connError =>
    unfold stepAmi at hstep
    simp only [Except.ok.injEq, Prod.mk.injEq] at hstep
    obtain ⟨-, hws, -⟩ := hstep
    subst hws
    simp
  | connClose =>
    unfold stepAmi at hstep
    simp only [Except.ok.injEq, Prod.mk.injEq] at hstep
    obtain ⟨-, hws, -⟩ := hstep
    subst hws
    simp
  | apiSend p =>
    unfold stepAmi at hstep
    simp only [] at hstep
    split_ifs at hstep <;>
      first
        | exact Except.noConfusion hstep
        | (simp only [Except.ok.injEq, Prod.mk.injEq] at hstep
           obtain ⟨-, hws, -⟩ := hstep
           subst hws
           simp)
  | apiClose =>
    unfold stepAmi at hstep
    simp only [] at hstep
    split_ifs at hstep <;>
      first
        | exact Except.noConfusion hstep
        | (simp only [Except.ok.injEq, Prod.mk.injEq] at hstep
           obtain ⟨-, hws, -⟩ := hstep
           subst hws
           simp)

theorem runAmi_writes_connected : ∀ (tr : List AmiEvent) (m : AmiMode) (s : AmiState),
    (m = .connected ∨ m = .closedConn) → stateOk m s →
    admissibleFrom m tr = true →
    ∀ w ∈ (runAmi s tr).1, (∃ bs, w = Write.binary bs) ∨ w = Write.text "e" := by
  intro tr
  induction tr with
  | nil =>
    intro m s _ _ _ w hw
    simp [runAmi] at hw
  | cons e es ih =>
    intro m s hmode hok hadm w hw
    unfold admissibleFrom at hadm
    rcases hm : amiModeStep m e with _ | m2 <;> rw [hm] at hadm
    · simp at hadm
    · unfold runAmi at hw
      rcases hstep : stepAmi s e with err | ⟨s2, ws, ems⟩ <;> rw [hstep] at hw
      · simp at hw
      · simp only [List.mem_append] at hw
        rcases hw with hw | hw
        · exact stepAmi_writes_connected hmode hm hstep w hw
        · have hmode2 : m2 = .connected ∨ m2 = .closedConn := by
            rcases hmode with rfl | rfl <;> cases e <;> simp_all [amiModeStep]
          exact ih m2 s2 hmode2 (stepAmi_stateOk hok hm hstep).1 hadm w hw

/-- Along any admissible run from a fresh pending state: if the connect
succeeds the very first provider write is the session-start command, it
is never written again, and every later write is an audio frame or the
close command; if the connect never succeeds nothing is ever written. -/
theorem runAmi_startCommand : ∀ (tr : List AmiEvent) (s : AmiState),
    stateOk .pending s →
    admissibleFrom .pending tr = true →
    ((AmiEvent.connectSuccess ∈ tr →
      ∃ rest, (runAmi s tr).1 = Write.text (startCommand s.apiKey) :: rest ∧
        ∀ w ∈ rest, (∃ bs, w = Write.binary bs) ∨ w = Write.text "e") ∧
     (AmiEvent.connectSuccess ∉ tr → (runAmi s tr).1 = [])) := by
  intro tr
  induction tr with
  | nil =>
    intro s _ _
    exact ⟨fun h => absurd h (by simp), fun _ => rfl⟩
  | cons e es ih =>
    intro s hok hadm
    obtain ⟨hr, hst, hc⟩ := hok
    unfold admissibleFrom at hadm
    rcases hm : amiModeStep .pending e with _ | m2 <;> rw [hm] at hadm
    · simp at hadm
    · cases e with
      | connectSuccess =>
        simp only [amiModeStep, Option.some.injEq] at hm
        subst hm
        have hse : stepAmi s .connectSuccess
            = .ok ({ s with hasConnection := true, isReady := true, pendingConnect := false },
                   [Write.text (startCommand s.apiKey)], []) := by
          unfold stepAmi
          simp [hst]
        constructor
        · intro _
          refine ⟨(runAmi { s with hasConnection := true, isReady := true, pendingConnect := false } es).1, ?_, ?_⟩
          · rw [runAmi_cons_ok hse es]
            simp
          · exact runAmi_writes_connected es .connected _ (Or.inl rfl) rfl hadm
        · intro hnot
          exact absurd (by simp) hnot
      | connectFailed =>
        simp only [amiModeStep, Option.some.injEq] at hm
        subst hm
        have hnos := admissibleFrom_failed_no_success es hadm
        have hwr : (runAmi s (AmiEvent.connectFailed :: es)).1 = [] := by
          have hse : stepAmi s .connectFailed
              = .ok ({ s with isReady := false, pendingConnect := false }, [], []) := rfl
          rw [runAmi_cons_ok hse es]
          simpa using runAmi_dead_writes es .failed
            { s with isReady := false, pendingConnect := false }
            (Or.inr rfl) rfl hst hadm hnos
        constructor
        · intro hmem
          have : AmiEvent.connectSuccess ∈ es := by simpa using hmem
          exact absurd this hnos
        · intro _
          exact hwr
      | apiSend p =>
        simp only [amiModeStep, Option.some.injEq] at hm
        subst hm
        have hse : stepAmi s (.apiSend p) = .ok (s, [], []) := by
          unfold stepAmi
          simp [hst]
        have hrw : (runAmi s (AmiEvent.apiSend p :: es)).1 = (runAmi s es).1 := by
          rw [runAmi_cons_ok hse es]
          simp
        obtain ⟨ih1, ih2⟩ := ih s ⟨hr, hst, hc⟩ hadm
        constructor
        · intro hmem
          have hmem2 : AmiEvent.connectSuccess ∈ es := by simpa using hmem
          obtain ⟨rest, hrest, hprop⟩ := ih1 hmem2
          exact ⟨rest, by rw [hrw, hrest], hprop⟩
        · intro hmem
          have hmem2 : AmiEvent.connectSuccess ∉ es := fun hin => hmem (by simp [hin])
          rw [hrw]
          exact ih2 hmem2
      | apiClose =>
        simp only [amiModeStep, Option.some.injEq] at hm
        subst hm
        have hse : stepAmi s .apiClose = .ok (s, [], []) := by
          unfold stepAmi
          simp [hst]
        have hrw : (runAmi s (AmiEvent.apiClose :: es)).1 = (runAmi s es).1 := by
          rw [runAmi_cons_ok hse es]
          simp
        obtain ⟨ih1, ih2⟩ := ih s ⟨hr, hst, hc⟩ hadm
        constructor
        · intro hmem
          have hmem2 : AmiEvent.connectSuccess ∈ es := by simpa using hmem
          obtain ⟨rest, hrest, hprop⟩ := ih1 hmem2
          exact ⟨rest, by rw [hrw, hrest], hprop⟩
        · intro hmem
          have hmem2 : AmiEvent.connectSuccess ∉ es := fun hin => hmem (by simp [hin])
          rw [hrw]
          exact ih2 hmem2
      | message d => simp [amiModeStep] at hm
      | messageBinary => simp [amiModeStep] at hm
      | connError => simp [amiModeStep] at hm
      | connClose => simp [amiModeStep] at hm

/-- `send()` and `close()` calls: the only two methods an owner can
invoke explicitly on the Speech Session. -/
def isApiEvent : AmiEvent → Bool
  | .apiSend _ => true
  | .apiClose => true
  | _ => false

/-- On a session whose flags are clear, any sequence of explicit
`send()`/`close()` calls does nothing at all: no writes and no state
change (in particular no new connect attempt). -/
theorem runAmi_api_noop : ∀ (evs : List AmiEvent) (s : AmiState),
    s.isReady = false → s.isStarted = false →
    (∀ e ∈ evs, isApiEvent e = true) →
    runAmi s evs = ([], .ok s) := by
  intro evs
  induction evs with
  | nil => intro s _ _ _; rfl
  | cons e es ih =>
    intro s hr hst hall
    have he := hall e (by simp)
    have hes : ∀ e2 ∈ es, isApiEvent e2 = true := fun e2 h2 => hall e2 (by simp [h2])
    cases e with
    | apiSend p =>
      have hse : stepAmi s (.apiSend p) = .ok (s, [], []) := by
        unfold stepAmi
        simp [hst]
      rw [runAmi_cons_ok hse es, ih s hr hst hes]
      simp
    | apiClose =>
      have hse : stepAmi s .apiClose = .ok (s, [], []) := by
        unfold stepAmi
        simp [hst]
      rw [runAmi_cons_ok hse es, ih s hr hst hes]
      simp
    | connectFailed => simp [isApiEvent] at he
    | connectSuccess => simp [isApiEvent] at he
    | message d => simp [isApiEvent] at he
    | messageBinary => simp [isApiEvent] at he
    | connError => simp [isApiEvent] at he
    | connClose => simp [isApiEvent] at he

/-! ## Claim theorems -/

/-- Claim C1, counterexample: on a fresh Call Session (no `start` event
processed, `amiVoiceConnection` still `null`), processing a `media`
event does not complete without fault: `processMessage` dereferences the
absent Speech Session and throws a `TypeError` instead of dropping the
chunk as a graceful no-op. -/
theorem claim_C1_counterexample :
    processMessage "key" vsInit emptyHeap (.utf8 (.media "AAAA"))
      = .error .typeError := rfl

/-- Claim C1 (amended): for every `media` event processed before any
`start` event has created a Speech Session, no write is performed to any
speech-provider connection — but `processMessage` does not complete
without fault: it throws a `TypeError` (`this.amiVoiceConnection` is
`null`), so the chunk is lost to the exception rather than dropped as a
no-op. -/
theorem claim_C1_amended (apiKey : String) (st : VSState) (heap : SessionHeap)
    (p : String) (h : st.amiVoiceConnection = none) :
    processMessage apiKey st heap (.utf8 (.media p)) = .error .typeError := by
  unfold processMessage
  rw [h]

theorem claim_C1_amended_witness :
    (⟨5, none, "CA"⟩ : VSState).amiVoiceConnection = none ∧
    processMessage "key" ⟨5, none, "CA"⟩ emptyHeap (.utf8 (.media "zzz"))
      = .error .typeError :=
  ⟨rfl, claim_C1_amended "key" ⟨5, none, "CA"⟩ emptyHeap "zzz" rfl⟩

/-- Claim C2, evaluation at the failing input: `close()` on a Call
Session that never received a `start` event does not complete without
fault — `this.amiVoiceConnection` is still `null` and
`this.amiVoiceConnection.close()` throws a `TypeError`.  The claim
states the intended behavior (guarded no-op teardown), which the source
itself flags as a latent fault it fails to implement. -/
theorem claim_C2_code_bug :
    vsClose vsInit emptyHeap = .error .typeError := rfl

/-- Claim C3, counterexample: drive a fresh Speech Session through a
low-level connect failure (`Disconnected`); the next explicit `send()`
and the next explicit `close()` change nothing at all — no write, no
state change, and the connect-attempt counter stays at 1 (the single
constructor-time attempt), refuting "triggers exactly one reconnect
attempt". -/
theorem claim_C3_counterexample :
    runAmi (amiInit "key") [.connectFailed]
      = ([], .ok ⟨"key", false, false, false, false, 1⟩) ∧
    stepAmi ⟨"key", false, false, false, false, 1⟩ (.apiSend "AAAA")
      = .ok (⟨"key", false, false, false, false, 1⟩, [], []) ∧
    stepAmi ⟨"key", false, false, false, false, 1⟩ .apiClose
      = .ok (⟨"key", false, false, false, false, 1⟩, [], []) :=
  ⟨rfl, rfl, rfl⟩

/-- Claim C3 (amended): while the Speech Session is Disconnected after a
low-level connect failure, subsequent explicit `send()` and `close()`
calls trigger no reconnect attempt at all and perform no writes: the
state is unchanged and the connect-attempt count stays at the single
constructor-time attempt.  No scheduled or automatic retry occurs
either — the lazy-reconnect branch exists only inside `start()`, which
nothing invokes after construction. -/
theorem claim_C3_amended (key : String) (evs : List AmiEvent)
    (h : ∀ e ∈ evs, isApiEvent e = true) :
    runAmi (amiInit key) (.connectFailed :: evs)
      = ([], .ok { apiKey := key, isReady := false, isStarted := false,
                   hasConnection := false, pendingConnect := false,
                   connectAttempts := 1 }) := by
  have hse : stepAmi (amiInit key) .connectFailed
      = .ok ({ apiKey := key, isReady := false, isStarted := false,
               hasConnection := false, pendingConnect := false,
               connectAttempts := 1 }, [], []) := rfl
  have hnoop := runAmi_api_noop evs
    { apiKey := key, isReady := false, isStarted := false, hasConnection := false, pendingConnect := false, connectAttempts := 1 }
    rfl rfl h
  rw [runAmi_cons_ok hse evs, hnoop]
  simp

theorem claim_C3_amended_witness :
    (∀ e ∈ ([.apiSend "AAAA", .apiClose, .apiSend "AAAA"] : List AmiEvent),
      isApiEvent e = true) ∧
    runAmi (amiInit "key") (.connectFailed ::
        [.apiSend "AAAA", .apiClose, .apiSend "AAAA"])
      = ([], .ok { apiKey := "key", isReady := false, isStarted := false,
                   hasConnection := false, pendingConnect := false,
                   connectAttempts := 1 }) :=
  ⟨by decide, claim_C3_amended "key" [.apiSend "AAAA", .apiClose, .apiSend "AAAA"]
    (by decide)⟩

/-- Claim C4: for every base64-encoded payload — the encoding of any
byte sequence — `send(payload)` in the Started state performs exactly
one binary write on the provider connection, whose first byte is `0x70`
and whose remaining bytes equal the base64 decoding of the payload. -/
theorem claim_C4 (s : AmiState) (bs : List Nat)
    (hstart : s.isStarted = true) (hconn : s.hasConnection = true)
    (hbytes : ∀ b ∈ bs, b < 256) :
    stepAmi s (.apiSend (base64Encode bs))
      = .ok (s, [Write.binary (0x70 :: bs)], []) := by
  have hdec : base64DecodeNode (base64Encode bs) = bs := by
    unfold base64DecodeNode base64Encode
    exact b64_roundtrip bs hbytes
  unfold stepAmi
  simp [hstart, hconn, hdec, buildAudioFrame_eq]

theorem claim_C4_witness :
    (⟨"key", true, true, true, false, 1⟩ : AmiState).isStarted = true ∧
    (⟨"key", true, true, true, false, 1⟩ : AmiState).hasConnection = true ∧
    (∀ b ∈ ([0, 1, 255] : List Nat), b < 256) ∧
    stepAmi ⟨"key", true, true, true, false, 1⟩ (.apiSend (base64Encode [0, 1, 255]))
      = .ok (⟨"key", true, true, true, false, 1⟩,
             [Write.binary (0x70 :: [0, 1, 255])], []) :=
  ⟨rfl, rfl, by decide,
    claim_C4 ⟨"key", true, true, true, false, 1⟩ [0, 1, 255] rfl rfl (by decide)⟩

/-- Claim C5: in every reachable Speech Session state other than Started
(started flag clear), `send(payload)` performs zero writes to the
provider connection, and in every reachable state `send()` completes
without raising any synchronous error to its caller. -/
theorem claim_C5 (key : String) (tr : List AmiEvent) (s : AmiState) (p : String)
    (hadm : amiAdmissible tr = true)
    (hrun : (runAmi (amiInit key) tr).2 = .ok s) :
    (s.isStarted = false → stepAmi s (.apiSend p) = .ok (s, [], [])) ∧
    (∃ r, stepAmi s (.apiSend p) = .ok r) := by
  obtain ⟨m2, hok, -⟩ := runAmi_ok_stateOk tr .pending (amiInit key) s
    ⟨rfl, rfl, rfl⟩ hadm hrun
  constructor
  · intro hns
    unfold stepAmi
    simp [hns]
  · by_cases hst : s.isStarted = true
    · have hconn := stateOk_started_hasConnection hok hst
      exact ⟨(s, [Write.binary (buildAudioFrame (base64DecodeNode p))], []),
        by unfold stepAmi; simp [hst, hconn]⟩
    · have hns : s.isStarted = false := by
        cases hb : s.isStarted
        · rfl
        · exact absurd hb hst
      exact ⟨(s, [], []), by unfold stepAmi; simp [hns]⟩

theorem claim_C5_witness :
    amiAdmissible [] = true ∧
    (runAmi (amiInit "key") []).2 = .ok (amiInit "key") ∧
    (((amiInit "key").isStarted = false →
        stepAmi (amiInit "key") (.apiSend "zzz") = .ok (amiInit "key", [], [])) ∧
      ∃ r, stepAmi (amiInit "key") (.apiSend "zzz") = .ok r) :=
  ⟨rfl, rfl, claim_C5 "key" [] (amiInit "key") "zzz" rfl rfl⟩

theorem startCommand_ne_e (key : String) : startCommand key ≠ "e" := by
  intro h
  have h2 := congrArg String.length h
  rw [startCommand, String.length_append] at h2
  have h3 : ("s mulaw -a-general authorization=").length = 33 := rfl
  have h4 : ("e").length = 1 := rfl
  omega

/-- Claim C6: a provider text frame whose first character is `A` makes
the Speech Session parse the frame payload from byte offset 2 onward as
a JSON document and emit exactly one transcription event carrying that
document (whose `text` field is the Transcription Result's text), with
no state change and no provider write; a frame whose discriminator is
any of `S`, `E`, `C`, `U`, `G` produces no emission, no state change and
no write. -/
theorem claim_C6 (s : AmiState) (d : String) (doc : Json)
    (hA : d.data.head? = some 'A')
    (hparse : jsonParse (d.drop 2) = some doc) :
    stepAmi s (.message d) = .ok (s, [], [doc]) ∧
    ∀ c t, c ∈ (['S', 'E', 'C', 'U', 'G'] : List Char) →
      stepAmi s (.message (String.mk (c :: t))) = .ok (s, [], []) := by
  constructor
  · show handleProviderMessage s d = _
    unfold handleProviderMessage
    rcases hd : d.data with _ | ⟨c, rest⟩
    · rw [hd] at hA
      simp at hA
    · rw [hd] at hA
      simp only [List.head?_cons, Option.some.injEq] at hA
      subst hA
      simp [hparse]
  · intro c t hc
    show handleProviderMessage s (String.mk (c :: t)) = _
    fin_cases hc <;> rfl

theorem claim_C6_witness :
    ("A \x7b\"text\":\"hello\"\x7d".data.head? = some 'A') ∧
    jsonParse ("A \x7b\"text\":\"hello\"\x7d".drop 2)
      = some (Json.jobj [("text", Json.jstr "hello")]) ∧
    (stepAmi (amiInit "key") (.message "A \x7b\"text\":\"hello\"\x7d")
        = .ok (amiInit "key", [], [Json.jobj [("text", Json.jstr "hello")]]) ∧
      ∀ c t, c ∈ (['S', 'E', 'C', 'U', 'G'] : List Char) →
        stepAmi (amiInit "key") (.message (String.mk (c :: t)))
          = .ok (amiInit "key", [], [])) :=
  ⟨rfl, rfl, claim_C6 (amiInit "key") "A \x7b\"text\":\"hello\"\x7d"
    (Json.jobj [("text", Json.jstr "hello")]) rfl rfl⟩

/-- Claim C7: along every admissible event sequence delivered to a
freshly constructed Speech Session, if the low-level connect succeeds
then the session-start command `s mulaw -a-general authorization=<key>`
is the very first frame written on that connection and never recurs
(every later write is a binary audio frame or the close command `e`) —
so it is transmitted exactly once and before any audio frame; if the
connect never succeeds, nothing is written at all. -/
theorem claim_C7 (key : String) (tr : List AmiEvent)
    (hadm : amiAdmissible tr = true) :
    (AmiEvent.connectSuccess ∈ tr →
      ∃ rest, (runAmi (amiInit key) tr).1 = Write.text (startCommand key) :: rest ∧
        Write.text (startCommand key) ∉ rest ∧
        ∀ w ∈ rest, (∃ bs, w = Write.binary bs) ∨ w = Write.text "e") ∧
    (AmiEvent.connectSuccess ∉ tr → (runAmi (amiInit key) tr).1 = []) := by
  obtain ⟨h1, h2⟩ := runAmi_startCommand tr (amiInit key) ⟨rfl, rfl, rfl⟩ hadm
  refine ⟨?_, h2⟩
  intro hmem
  obtain ⟨rest, hrest, hprop⟩ := h1 hmem
  refine ⟨rest, hrest, ?_, hprop⟩
  intro hin
  rcases hprop _ hin with ⟨bs, hbs⟩ | hbs
  · exact Write.noConfusion hbs
  · have heq : startCommand key = "e" := by injection hbs
    exact startCommand_ne_e key heq

theorem claim_C7_witness :
    amiAdmissible [AmiEvent.connectSuccess] = true ∧
    ((AmiEvent.connectSuccess ∈ [AmiEvent.connectSuccess] →
      ∃ rest, (runAmi (amiInit "key") [AmiEvent.connectSuccess]).1
          = Write.text (startCommand "key") :: rest ∧
        Write.text (startCommand "key") ∉ rest ∧
        ∀ w ∈ rest, (∃ bs, w = Write.binary bs) ∨ w = Write.text "e") ∧
     (AmiEvent.connectSuccess ∉ [AmiEvent.connectSuccess] →
      (runAmi (amiInit "key") [AmiEvent.connectSuccess]).1 = [])) :=
  ⟨rfl, claim_C7 "key" [AmiEvent.connectSuccess] rfl⟩

/-- Claim C8, counterexample: after the admissible provider frame
sequence connect-success, `e`, `s`, the Speech Session is reachable with
its started flag set but its ready flag clear; `close()` on this session
writes nothing and leaves the started flag set — refuting "close() on a
Speech Session whose started flag is set sends exactly the single close
command `e` and clears the internal started flag". -/
theorem claim_C8_counterexample :
    amiAdmissible [.connectSuccess, .message "e", .message "s"] = true ∧
    runAmi (amiInit "key") [.connectSuccess, .message "e", .message "s"]
      = ([Write.text (startCommand "key")], .ok ⟨"key", false, true, true, false, 1⟩) ∧
    (⟨"key", false, true, true, false, 1⟩ : AmiState).isStarted = true ∧
    stepAmi ⟨"key", false, true, true, false, 1⟩ .apiClose
      = .ok (⟨"key", false, true, true, false, 1⟩, [], []) :=
  ⟨rfl, rfl, rfl, rfl⟩

/-- Claim C8 (amended): `close()` sends exactly the single close command
`e` and clears the started flag precisely when both the started and the
ready flag are set (the guard is `isStarted && isReady`, on the assigned
connection); `close()` on a Speech Session whose started flag is clear —
and likewise in the anomalous started-but-not-ready state — performs no
write to the provider connection and changes nothing. -/
theorem claim_C8_amended (s : AmiState) :
    (s.isStarted = true → s.isReady = true → s.hasConnection = true →
      stepAmi s .apiClose
        = .ok ({ s with isStarted := false }, [Write.text "e"], [])) ∧
    (s.isStarted = false → stepAmi s .apiClose = .ok (s, [], [])) := by
  constructor
  · intro h1 h2 h3
    unfold stepAmi
    simp [h1, h2, h3]
  · intro h1
    unfold stepAmi
    simp [h1]

theorem claim_C8_amended_witness :
    ((⟨"key", true, true, true, false, 1⟩ : AmiState).isStarted = true ∧
      (⟨"key", true, true, true, false, 1⟩ : AmiState).isReady = true ∧
      (⟨"key", true, true, true, false, 1⟩ : AmiState).hasConnection = true ∧
      stepAmi ⟨"key", true, true, true, false, 1⟩ .apiClose
        = .ok (⟨"key", true, false, true, false, 1⟩, [Write.text "e"], [])) ∧
    ((⟨"key", true, false, true, false, 1⟩ : AmiState).isStarted = false ∧
      stepAmi ⟨"key", true, false, true, false, 1⟩ .apiClose
        = .ok (⟨"key", true, false, true, false, 1⟩, [], [])) :=
  ⟨⟨rfl, rfl, rfl,
      (claim_C8_amended ⟨"key", true, true, true, false, 1⟩).1 rfl rfl rfl⟩,
    ⟨rfl, (claim_C8_amended ⟨"key", true, false, true, false, 1⟩).2 rfl⟩⟩

/-- Claim C9: for a Transcription Result with transcribed text and the
stored call identifier, `receivedTranscription` invokes the
chat-completion interface exactly once, with the transcribed text as the
single user message, awaits the single completion string (the first
choice's message content), and then invokes the call-update interface
exactly once with the stored call identifier and a TwiML document that
speaks the completion text and then pauses for a fixed 40 seconds. -/
theorem claim_C9 (complete : List ChatMessage → ChatCompletionResponse)
    (text callSid : String) (choice : ChatChoice)
    (hchoice : (complete [{ role := "user", content := text }]).choices.get? 0
      = some choice) :
    receivedTranscription complete text callSid
      = .ok [ ExtCall.chatComplete "gpt-3.5-turbo"
                [{ role := "user", content := text }],
              ExtCall.callUpdate callSid
                { voice := TWILIO_VOICE, language := TWILIO_LANGUAGE,
                  sayText := choice.message.content, pauseLength := 40 } ] := by
  unfold receivedTranscription
  simp only [hchoice]

theorem claim_C9_witness :
    (((fun _ => (⟨[⟨⟨"assistant", "hi"⟩⟩]⟩ : ChatCompletionResponse)) :
        List ChatMessage → ChatCompletionResponse)
          [{ role := "user", content := "こんにちは" }]).choices.get? 0
        = some ⟨⟨"assistant", "hi"⟩⟩ ∧
    receivedTranscription (fun _ => ⟨[⟨⟨"assistant", "hi"⟩⟩]⟩) "こんにちは" "CA123"
      = .ok [ ExtCall.chatComplete "gpt-3.5-turbo"
                [{ role := "user", content := "こんにちは" }],
              ExtCall.callUpdate "CA123"
                { voice := TWILIO_VOICE, language := TWILIO_LANGUAGE,
                  sayText := "hi", pauseLength := 40 } ] :=
  ⟨rfl, claim_C9 (fun _ => ⟨[⟨⟨"assistant", "hi"⟩⟩]⟩) "こんにちは" "CA123"
    ⟨⟨"assistant", "hi"⟩⟩ rfl⟩

/-- Claim C10: a second `start` event before `closed` overwrites the
`amiVoiceConnection` reference with a newly constructed Speech Session
without closing the previous one.  After `start sid1`, a successful
provider connect of that first session, and `start sid2`: both sessions
are on the heap; the first is still connected (ready flag set, no close
command was ever written — the only write is its own session-start
command); both transcription subscriptions remain attached; and a
transcription emitted by the first session still triggers the reply
pipeline (with the current, overwritten call identifier `sid2`). -/
theorem claim_C10 (apiKey sid1 sid2 : String)
    (complete : List ChatMessage → ChatCompletionResponse) (doc : Json) :
    runSys apiKey vsInit emptyHeap
        [.twilio (.utf8 (.start sid1)), .ami 0 .connectSuccess,
         .twilio (.utf8 (.start sid2))]
      = .ok ({ messageCount := 2, amiVoiceConnection := some 1, callSid := sid2 },
             { sessions := [{ apiKey := apiKey, isReady := true, isStarted := false,
                              hasConnection := true, pendingConnect := false,
                              connectAttempts := 1 },
                            amiInit apiKey],
               subs := [0, 1] },
             [(0, Write.text (startCommand apiKey))]) ∧
    deliverTranscription complete
        { messageCount := 2, amiVoiceConnection := some 1, callSid := sid2 }
        { sessions := [{ apiKey := apiKey, isReady := true, isStarted := false,
                         hasConnection := true, pendingConnect := false,
                         connectAttempts := 1 },
                       amiInit apiKey],
          subs := [0, 1] } 0 doc
      = [receivedTranscriptionDoc complete doc sid2] := by
  refine ⟨rfl, ?_⟩
  unfold deliverTranscription
  rw [if_pos (by simp)]
